import Mathlib

/-!
Verification of the Reustmann virtual machine engine.

This development shallowly embeds the core of the Reustmann interpreter:
the instruction table (src/src/instruction.rs), the program loader
(src/src/program.rs) and the execution engine (src/src/interpreter.rs).
Machine bytes (Rust u8) are modelled as Nat values, with an explicit
mod 256 wherever the Rust type system or wrapping arithmetic truncates.
Fallible operations (a panic, a failed constructor) are modelled with
Option. A byte input stream is modelled as a list of bytes: reading from
an exhausted list yields the byte 0 with an Ok result, exactly as a Rust
reader at end of input returns Ok(0) leaving the buffer zeroed.
-/

namespace Reustmann

/-- The 46 opcodes of the Reustmann instruction set, in declaration order
of the Instruction enum of src/src/instruction.rs. The numeric opcode of
each constructor is its position: Nop = 0 up to Skip9 = 45. -/
inductive Instruction where
  | Nop | Reset | Halt | In | Out | Pop | Dup | PushPc | PopPc | PopSp
  | SpTgt | PushNz | Swap | Push0 | Add | Sub | Inc | Dec | Mul | Div
  | Xor | And | Or | Shl | Shr | Not | Bz | Bnz | Beq | Bgt | Blt | Bge
  | Loop | EndL | BraN | BraP | Target | Skip1 | Skip2 | Skip3 | Skip4
  | Skip5 | Skip6 | Skip7 | Skip8 | Skip9
  deriving DecidableEq, Repr

/-- Numeric opcode of an instruction: the enum discriminant, used by the
Rust conversion From Instruction for u8 (the cast i as u8). -/
def Instruction.opcode : Instruction → Nat
  | .Nop => 0
  | .Reset => 1
  | .Halt => 2
  | .In => 3
  | .Out => 4
  | .Pop => 5
  | .Dup => 6
  | .PushPc => 7
  | .PopPc => 8
  | .PopSp => 9
  | .SpTgt => 10
  | .PushNz => 11
  | .Swap => 12
  | .Push0 => 13
  | .Add => 14
  | .Sub => 15
  | .Inc => 16
  | .Dec => 17
  | .Mul => 18
  | .Div => 19
  | .Xor => 20
  | .And => 21
  | .Or => 22
  | .Shl => 23
  | .Shr => 24
  | .Not => 25
  | .Bz => 26
  | .Bnz => 27
  | .Beq => 28
  | .Bgt => 29
  | .Blt => 30
  | .Bge => 31
  | .Loop => 32
  | .EndL => 33
  | .BraN => 34
  | .BraP => 35
  | .Target => 36
  | .Skip1 => 37
  | .Skip2 => 38
  | .Skip3 => 39
  | .Skip4 => 40
  | .Skip5 => 41
  | .Skip6 => 42
  | .Skip7 => 43
  | .Skip8 => 44
  | .Skip9 => 45

/-- From char for Instruction (src/src/instruction.rs): maps each of the
45 reserved mnemonic characters to its instruction, every other character
to Nop. -/
def Instruction.from_mnemonic (c : Char) : Instruction :=
  match c with
  | 'R' => .Reset
  | 'H' => .Halt
  | 'I' => .In
  | 'O' => .Out
  | 'p' => .Pop
  | 'D' => .Dup
  | 'C' => .PushPc
  | 'c' => .PopPc
  | 'Y' => .PopSp
  | 'G' => .SpTgt
  | 'P' => .PushNz
  | 'S' => .Swap
  | '0' => .Push0
  | '+' => .Add
  | '-' => .Sub
  | '.' => .Inc
  | ',' => .Dec
  | '*' => .Mul
  | '/' => .Div
  | '^' => .Xor
  | '&' => .And
  | '|' => .Or
  | '(' => .Shl
  | ')' => .Shr
  | '~' => .Not
  | 'Z' => .Bz
  | 'z' => .Bnz
  | '=' => .Beq
  | '>' => .Bgt
  | '\x7b' => .Blt
  | '\x7d' => .Bge
  | 'L' => .Loop
  | ']' => .EndL
  | 'B' => .BraN
  | 'b' => .BraP
  | 'T' => .Target
  | '1' => .Skip1
  | '2' => .Skip2
  | '3' => .Skip3
  | '4' => .Skip4
  | '5' => .Skip5
  | '6' => .Skip6
  | '7' => .Skip7
  | '8' => .Skip8
  | '9' => .Skip9
  | _ => .Nop

/-- From Instruction for char (src/src/instruction.rs): the
single-character short mnemonic of each opcode. -/
def Instruction.to_mnemonic : Instruction → Char
  | .Nop => ';'
  | .Reset => 'R'
  | .Halt => 'H'
  | .In => 'I'
  | .Out => 'O'
  | .Pop => 'p'
  | .Dup => 'D'
  | .PushPc => 'C'
  | .PopPc => 'c'
  | .PopSp => 'Y'
  | .SpTgt => 'G'
  | .PushNz => 'P'
  | .Swap => 'S'
  | .Push0 => '0'
  | .Add => '+'
  | .Sub => '-'
  | .Inc => '.'
  | .Dec => ','
  | .Mul => '*'
  | .Div => '/'
  | .Xor => '^'
  | .And => '&'
  | .Or => '|'
  | .Shl => '('
  | .Shr => ')'
  | .Not => '~'
  | .Bz => 'Z'
  | .Bnz => 'z'
  | .Beq => '='
  | .Bgt => '>'
  | .Blt => '\x7b'
  | .Bge => '\x7d'
  | .Loop => 'L'
  | .EndL => ']'
  | .BraN => 'B'
  | .BraP => 'b'
  | .Target => 'T'
  | .Skip1 => '1'
  | .Skip2 => '2'
  | .Skip3 => '3'
  | .Skip4 => '4'
  | .Skip5 => '5'
  | .Skip6 => '6'
  | .Skip7 => '7'
  | .Skip8 => '8'
  | .Skip9 => '9'

/-- is_valid_mnemonic (src/src/instruction/mod.rs): whether a character
is one of the 46 reserved short mnemonics (the Nop mnemonic included). -/
def is_valid_mnemonic (c : Char) : Bool :=
  match c with
  | ';' | 'R' | 'H' | 'I' | 'O' | 'p' | 'D' | 'C' | 'c' | 'Y'
  | 'G' | 'P' | 'S' | '0' | '+' | '-' | '.' | ',' | '*' | '/'
  | '^' | '&' | '|' | '(' | ')' | '~' | 'Z' | 'z' | '=' | '>'
  | '\x7b' | '\x7d' | 'L' | ']' | 'B' | 'b' | 'T' | '1' | '2' | '3'
  | '4' | '5' | '6' | '7' | '8' | '9' => true
  | _ => false

/-- Execution status of a command: struct Statement(OpCode, ExecutionSucceeded)
of src/src/interpreter.rs. -/
structure Statement where
  op : Nat
  success : Bool
  deriving DecidableEq, Repr

/-- The interpreter state of src/src/interpreter.rs: arch width in bits,
a fixed vector of byte cells, and the three registers. -/
structure Interpreter where
  arch_width : Nat
  memory : List Nat
  pc : Nat
  sp : Nat
  nz : Bool
  deriving DecidableEq, Repr

/-- Result of executing one instruction: the new machine state, the rest
of the input stream, the output written so far, and the Statement. -/
structure ExecResult where
  machine : Interpreter
  input : List Nat
  output : List Nat
  stmt : Statement
  deriving DecidableEq, Repr

/-- Interpreter::new: fails unless arch_length lies in 1 up to 2^32 - 1
(u32::MAX) and arch_width lies in 6..32; memory is arch_length cells all
initialized to NOP (0), registers zeroed. -/
def Interpreter.new (arch_length arch_width : Nat) : Option Interpreter :=
  if arch_length = 0 ∨ arch_length > 4294967295 then none
  else if arch_width < 6 ∨ arch_width > 32 then none
  else some ⟨arch_width, List.replicate arch_length 0, 0, 0, false⟩

/-- Interpreter::reset: sets pc, sp and nz to 0, 0 and false; the memory
is untouched. (The source also returns Statement(RESET, true).) -/
def reset (m : Interpreter) : Interpreter :=
  { m with pc := 0, sp := 0, nz := false }

/-- Interpreter::increment_pc_n: pc wraps modulo the memory length. -/
def increment_pc_n (m : Interpreter) (n : Nat) : Interpreter :=
  { m with pc := (m.pc + n) % m.memory.length }

/-- Interpreter::increment_pc. -/
def increment_pc (m : Interpreter) : Interpreter :=
  increment_pc_n m 1

/-- Interpreter::set_nz: nz is whether the byte is nonzero. -/
def set_nz (m : Interpreter) (val : Nat) : Interpreter :=
  { m with nz := val ≠ 0 }

/-- Interpreter::decrement_sp: sp moves down one cell, wrapping to the
top of memory from 0. -/
def decrement_sp (m : Interpreter) : Interpreter :=
  { m with sp := if m.sp = 0 then m.memory.length - 1 else m.sp - 1 }

/-- Interpreter::increment_sp. -/
def increment_sp (m : Interpreter) : Interpreter :=
  { m with sp := (m.sp + 1) % m.memory.length }

/-- Interpreter::trunc: mask a value to the low arch_width bits. In the
source this helper is defined but never called by any opcode (the PUSHPC
arm carries the comment FIXME use trunc). -/
def trunc (m : Interpreter) (val : Nat) : Nat :=
  val &&& (2 ^ m.arch_width - 1)

/-- The forward scan of the SPTGT and BRAN arms: the Rust loop
for i in start..len, break on the first cell equal to v. The fuel is the
number of remaining iterations, len - start at the call site. -/
def scanForward (mem : List Nat) (v : Nat) : Nat → Nat → Option Nat
  | 0, _ => none
  | fuel + 1, i => if mem.getD i 0 = v then some i else scanForward mem v fuel (i + 1)

/-- The backward scan of the ENDL and BRAP arms: the Rust loop
for i in (0..k).rev(), break on the first cell equal to v. -/
def scanBackward (mem : List Nat) (v : Nat) : Nat → Option Nat
  | 0 => none
  | k + 1 => if mem.getD k 0 = v then some k else scanBackward mem v k

/-- Interpreter::execute (src/src/interpreter.rs): dispatch over the
numeric opcode. Every unassigned byte value falls to the final NOP arm.
Opcode numbers are commented with their names. -/
def execute (m : Interpreter) (op : Nat) (input output : List Nat) : ExecResult :=
  match op with
  | 1 => -- RESET
    ⟨reset m, input, output, ⟨op, true⟩⟩
  | 2 => -- HALT
    ⟨m, input, output, ⟨op, true⟩⟩
  | 3 => -- IN
    -- a list-backed reader yields the next byte, or leaves the zeroed
    -- buffer untouched at end of input; both are Ok, so status stays true
    let m1 := decrement_sp m
    let byte := input.headD 0 % 256
    let m2 := { m1 with memory := m1.memory.set m1.sp byte }
    let m3 := set_nz m2 byte
    ⟨increment_pc m3, input.tail, output, ⟨op, true⟩⟩
  | 4 => -- OUT
    let val := m.memory.getD m.sp 0
    let m1 := set_nz m val
    let m2 := increment_sp m1
    ⟨increment_pc m2, input, output ++ [val], ⟨op, true⟩⟩
  | 5 => -- POP
    let val := m.memory.getD m.sp 0
    let m1 := set_nz m val
    let m2 := increment_sp m1
    ⟨increment_pc m2, input, output, ⟨op, true⟩⟩
  | 6 => -- DUP
    let tmp := m.memory.getD m.sp 0
    let m1 := decrement_sp m
    let m2 := { m1 with memory := m1.memory.set m1.sp tmp }
    let m3 := set_nz m2 tmp
    ⟨increment_pc m3, input, output, ⟨op, true⟩⟩
  | 7 => -- PUSHPC
    let val := m.pc % 256
    let m1 := decrement_sp m
    let m2 := { m1 with memory := m1.memory.set m1.sp val }
    let m3 := set_nz m2 val
    ⟨increment_pc m3, input, output, ⟨op, true⟩⟩
  | 8 => -- POPPC
    let m1 := { m with pc := m.memory.getD m.sp 0 % m.memory.length }
    ⟨increment_sp m1, input, output, ⟨op, true⟩⟩
  | 9 => -- POPSP
    let m1 := { m with sp := m.memory.getD m.sp 0 % m.memory.length }
    ⟨increment_pc m1, input, output, ⟨op, true⟩⟩
  | 10 => -- SPTGT
    let m1 :=
      if m.pc < m.memory.length - 1 then
        match scanForward m.memory 36 (m.memory.length - (m.pc + 1)) (m.pc + 1) with
        | some i => { m with sp := i }
        | none => m
      else m
    ⟨increment_pc m1, input, output, ⟨op, true⟩⟩
  | 11 => -- PUSHNZ
    let val := if m.nz then 1 else 0
    let m1 := decrement_sp m
    let m2 := { m1 with memory := m1.memory.set m1.sp val }
    let m3 := set_nz m2 val
    ⟨increment_pc m3, input, output, ⟨op, true⟩⟩
  | 12 => -- SWAP
    let tmp := m.memory.getD m.sp 0
    let mem1 := m.memory.set m.sp (m.memory.getD ((m.sp + 1) % m.memory.length) 0)
    let mem2 := mem1.set ((m.sp + 1) % m.memory.length) tmp
    ⟨increment_pc { m with memory := mem2 }, input, output, ⟨op, true⟩⟩
  | 13 => -- PUSH0
    let m1 := decrement_sp m
    let m2 := { m1 with memory := m1.memory.set m1.sp 0 }
    let m3 := set_nz m2 0
    ⟨increment_pc m3, input, output, ⟨op, true⟩⟩
  | 14 => -- ADD
    let m1 := decrement_sp m
    let a := m1.memory.getD ((m1.sp + 2) % m1.memory.length) 0
    let b := m1.memory.getD ((m1.sp + 1) % m1.memory.length) 0
    let val := (a + b) % 256
    let m2 := { m1 with memory := m1.memory.set m1.sp val }
    let m3 := set_nz m2 val
    ⟨increment_pc m3, input, output, ⟨op, true⟩⟩
  | 15 => -- SUB
    let m1 := decrement_sp m
    let a := m1.memory.getD ((m1.sp + 2) % m1.memory.length) 0
    let b := m1.memory.getD ((m1.sp + 1) % m1.memory.length) 0
    let val := (256 + a - b) % 256
    let m2 := { m1 with memory := m1.memory.set m1.sp val }
    let m3 := set_nz m2 val
    ⟨increment_pc m3, input, output, ⟨op, true⟩⟩
  | 16 => -- INC
    let val := (m.memory.getD m.sp 0 + 1) % 256
    let m1 := { m with memory := m.memory.set m.sp val }
    let m2 := set_nz m1 val
    ⟨increment_pc m2, input, output, ⟨op, true⟩⟩
  | 17 => -- DEC
    let val := (m.memory.getD m.sp 0 + 255) % 256
    let m1 := { m with memory := m.memory.set m.sp val }
    let m2 := set_nz m1 val
    ⟨increment_pc m2, input, output, ⟨op, true⟩⟩
  | 18 => -- MUL
    let m1 := decrement_sp m
    let a := m1.memory.getD ((m1.sp + 2) % m1.memory.length) 0
    let b := m1.memory.getD ((m1.sp + 1) % m1.memory.length) 0
    let val := (a * b) % 256
    let m2 := { m1 with memory := m1.memory.set m1.sp val }
    let m3 := set_nz m2 val
    ⟨increment_pc m3, input, output, ⟨op, true⟩⟩
  | 19 => -- DIV
    let m1 := decrement_sp m
    let a := m1.memory.getD ((m1.sp + 2) % m1.memory.length) 0
    let b := m1.memory.getD ((m1.sp + 1) % m1.memory.length) 0
    -- u8::max_value() when the divisor is zero; no remainder is stored
    let val := if b ≠ 0 then a / b else 255
    let m2 := { m1 with memory := m1.memory.set m1.sp val }
    let m3 := set_nz m2 val
    ⟨increment_pc m3, input, output, ⟨op, true⟩⟩
  | 20 => -- XOR
    let m1 := decrement_sp m
    let a := m1.memory.getD ((m1.sp + 2) % m1.memory.length) 0
    let b := m1.memory.getD ((m1.sp + 1) % m1.memory.length) 0
    let val := a ^^^ b
    let m2 := { m1 with memory := m1.memory.set m1.sp val }
    let m3 := set_nz m2 val
    ⟨increment_pc m3, input, output, ⟨op, true⟩⟩
  | 21 => -- AND
    let m1 := decrement_sp m
    let a := m1.memory.getD ((m1.sp + 2) % m1.memory.length) 0
    let b := m1.memory.getD ((m1.sp + 1) % m1.memory.length) 0
    let val := a &&& b
    let m2 := { m1 with memory := m1.memory.set m1.sp val }
    let m3 := set_nz m2 val
    ⟨increment_pc m3, input, output, ⟨op, true⟩⟩
  | 22 => -- OR
    let m1 := decrement_sp m
    let a := m1.memory.getD ((m1.sp + 2) % m1.memory.length) 0
    let b := m1.memory.getD ((m1.sp + 1) % m1.memory.length) 0
    let val := a ||| b
    let m2 := { m1 with memory := m1.memory.set m1.sp val }
    let m3 := set_nz m2 val
    ⟨increment_pc m3, input, output, ⟨op, true⟩⟩
  | 23 => -- SHL
    let val := (m.memory.getD m.sp 0 <<< 1) % 256
    let m1 := { m with memory := m.memory.set m.sp val }
    let m2 := set_nz m1 val
    ⟨increment_pc m2, input, output, ⟨op, true⟩⟩
  | 24 => -- SHR
    let val := m.memory.getD m.sp 0 >>> 1
    let m1 := { m with memory := m.memory.set m.sp val }
    let m2 := set_nz m1 val
    ⟨increment_pc m2, input, output, ⟨op, true⟩⟩
  | 25 => -- NOT
    let val := m.memory.getD m.sp 0 ^^^ 255
    let m1 := { m with memory := m.memory.set m.sp val }
    let m2 := set_nz m1 val
    ⟨increment_pc m2, input, output, ⟨op, true⟩⟩
  | 26 => -- BZ
    let m1 := increment_pc m
    let m2 := if m1.nz = false then increment_pc m1 else m1
    ⟨m2, input, output, ⟨op, true⟩⟩
  | 27 => -- BNZ
    let m1 := increment_pc m
    let m2 := if m1.nz = true then increment_pc m1 else m1
    ⟨m2, input, output, ⟨op, true⟩⟩
  | 28 => -- BEQ
    let m1 := increment_pc m
    let a := m1.memory.getD ((m1.sp + 1) % m1.memory.length) 0
    let b := m1.memory.getD m1.sp 0
    let m2 := if a = b then increment_pc m1 else m1
    ⟨m2, input, output, ⟨op, true⟩⟩
  | 29 => -- BGT
    let m1 := increment_pc m
    let a := m1.memory.getD ((m1.sp + 1) % m1.memory.length) 0
    let b := m1.memory.getD m1.sp 0
    let m2 := if a > b then increment_pc m1 else m1
    ⟨m2, input, output, ⟨op, true⟩⟩
  | 30 => -- BLT
    let m1 := increment_pc m
    let a := m1.memory.getD ((m1.sp + 1) % m1.memory.length) 0
    let b := m1.memory.getD m1.sp 0
    let m2 := if a < b then increment_pc m1 else m1
    ⟨m2, input, output, ⟨op, true⟩⟩
  | 31 => -- BGE
    let m1 := increment_pc m
    let a := m1.memory.getD ((m1.sp + 1) % m1.memory.length) 0
    let b := m1.memory.getD m1.sp 0
    let m2 := if a ≥ b then increment_pc m1 else m1
    ⟨m2, input, output, ⟨op, true⟩⟩
  | 32 => -- LOOP
    ⟨increment_pc m, input, output, ⟨op, true⟩⟩
  | 33 => -- ENDL
    let m1 :=
      match scanBackward m.memory 32 m.pc with
      | some i => { m with pc := (i + 1) % m.memory.length }
      | none => increment_pc m
    ⟨m1, input, output, ⟨op, true⟩⟩
  | 34 => -- BRAN
    -- NOTE: on a find, the source sets SP to the TARGET index and leaves
    -- PC unchanged, exactly as the SPTGT arm does
    let found :=
      if m.pc < m.memory.length - 1 then
        scanForward m.memory 36 (m.memory.length - (m.pc + 1)) (m.pc + 1)
      else none
    let m1 :=
      match found with
      | some i => { m with sp := i }
      | none => increment_pc m
    ⟨m1, input, output, ⟨op, true⟩⟩
  | 35 => -- BRAP
    let m1 :=
      match scanBackward m.memory 36 m.pc with
      | some i => { m with pc := (i + 1) % m.memory.length }
      | none => increment_pc m
    ⟨m1, input, output, ⟨op, true⟩⟩
  | 36 => -- TARGET
    ⟨increment_pc m, input, output, ⟨op, true⟩⟩
  | 37 => -- SKIP1
    ⟨increment_pc_n m 2, input, output, ⟨op, true⟩⟩
  | 38 => -- SKIP2
    ⟨increment_pc_n m 3, input, output, ⟨op, true⟩⟩
  | 39 => -- SKIP3
    ⟨increment_pc_n m 4, input, output, ⟨op, true⟩⟩
  | 40 => -- SKIP4
    ⟨increment_pc_n m 5, input, output, ⟨op, true⟩⟩
  | 41 => -- SKIP5
    ⟨increment_pc_n m 6, input, output, ⟨op, true⟩⟩
  | 42 => -- SKIP6
    ⟨increment_pc_n m 7, input, output, ⟨op, true⟩⟩
  | 43 => -- SKIP7
    ⟨increment_pc_n m 8, input, output, ⟨op, true⟩⟩
  | 44 => -- SKIP8
    ⟨increment_pc_n m 9, input, output, ⟨op, true⟩⟩
  | 45 => -- SKIP9
    ⟨increment_pc_n m 10, input, output, ⟨op, true⟩⟩
  | _ => -- NOP and every unassigned opcode value
    ⟨increment_pc m, input, output, ⟨op, true⟩⟩

/-- Interpreter::step: decode the cell under pc and execute it. -/
def step (m : Interpreter) (input output : List Nat) : ExecResult :=
  execute m (m.memory.getD m.pc 0) input output

/-- Iterate step n times, threading the input and output streams. -/
def stepN : Interpreter → List Nat → List Nat → Nat → Interpreter × List Nat × List Nat
  | m, input, output, 0 => (m, input, output)
  | m, input, output, n + 1 =>
    let r := step m input output
    stepN r.machine r.input r.output n

/-- The per-byte translation of Interpreter::copy_program: a recognized
mnemonic character is stored as its opcode number, any other byte
verbatim. -/
def translate_byte (b : Nat) : Nat :=
  let mnemo := Char.ofNat b
  if is_valid_mnemonic mnemo then (Instruction.from_mnemonic mnemo).opcode else b

/-- The loading loop of Interpreter::copy_program: store the translation
of each program byte at consecutive memory indices starting at i. -/
def store_program : List Nat → List Nat → Nat → List Nat
  | mem, [], _ => mem
  | mem, b :: rest, i => store_program (mem.set i (translate_byte b)) rest (i + 1)

/-- Interpreter::copy_program: translate each program byte into memory,
then reset. The source performs no length check: when the program is
longer than memory, the write at index L is out of bounds and the call
panics, modelled here as none. -/
def copy_program (m : Interpreter) (p : List Nat) : Option Interpreter :=
  if p.length ≤ m.memory.length then
    some (reset { m with memory := store_program m.memory p 0 })
  else none

/-- Program::new (src/src/program.rs): reads the whole stream, rejects an
empty program, and when ignore_last_newline is set pops the final byte.
The pattern if let Some(&endl) = instructions.last() in the source binds
a fresh variable named endl, so it matches ANY last byte and the pop is
unconditional for a nonempty program. -/
def Program.new (input : List Nat) (ignore_last_newline : Bool) : Option (List Nat) :=
  if input = [] then none
  else if ignore_last_newline = true then some input.dropLast
  else some input

/-- Invariant tying an interpreter to its architecture length: the memory
has exactly l cells and both index registers address one of them. -/
def Inv (m : Interpreter) (l : Nat) : Prop :=
  m.memory.length = l ∧ m.pc < l ∧ m.sp < l

/-- The register ranges of the specification: both index registers
address an existing memory cell of the machine itself. -/
def RegsOk (m : Interpreter) : Prop :=
  m.pc < m.memory.length ∧ m.sp < m.memory.length

/-- Length of memory is preserved by the loading loop. -/
theorem length_store_program : ∀ (p mem : List Nat) (i : Nat),
    (store_program mem p i).length = mem.length := by
  intro p
  induction p with
  | nil => intro mem i; rfl
  | cons b rest ih =>
    intro mem i
    simp only [store_program]
    rw [ih]
    simp

/-- A successful forward scan returns an index below start plus fuel, so
below the memory length at the call sites. -/
theorem scanForward_lt (mem : List Nat) (v : Nat) :
    ∀ (fuel i j : Nat), scanForward mem v fuel i = some j → j < i + fuel := by
  intro fuel
  induction fuel with
  | zero => intro i j h; simp [scanForward] at h
  | succ f ih =>
    intro i j h
    unfold scanForward at h
    split at h
    · simp at h; omega
    · have := ih (i + 1) j h; omega

set_option maxHeartbeats 1000000 in
/-- Executing any opcode preserves the machine invariant: the memory
length is unchanged and pc and sp stay inside it. -/
theorem execute_inv (m : Interpreter) (op : Nat) (input output : List Nat) (l : Nat)
    (h0 : 0 < l) (hI : Inv m l) :
    Inv (execute m op input output).machine l := by
  obtain ⟨hm, hpc, hsp⟩ := hI
  have hmod : ∀ x : Nat, x % m.memory.length < l := by
    intro x; rw [hm]; exact Nat.mod_lt _ h0
  have hdec : (if m.sp = 0 then m.memory.length - 1 else m.sp - 1) < l := by
    split <;> omega
  unfold execute
  split <;>
    simp only [Inv, reset, increment_pc, increment_pc_n, set_nz, decrement_sp,
      increment_sp, List.length_set] <;>
    first
      | (refine ⟨hm, ?_, ?_⟩ <;> first | exact hmod _ | exact hdec | omega)
      | skip
  all_goals (repeat' split)
  all_goals try dsimp only
  all_goals
    refine ⟨hm, ?_, ?_⟩ <;>
      first
        | exact hmod _
        | exact hdec
        | omega
        | (rename_i i heq
           have hb := scanForward_lt _ _ _ _ _ heq
           omega)
        | (rename_i i heq
           split at heq
           · have hb := scanForward_lt _ _ _ _ _ heq
             omega
           · cases heq)

/-- One step preserves the machine invariant. -/
theorem step_inv (m : Interpreter) (input output : List Nat) (l : Nat)
    (h0 : 0 < l) (hI : Inv m l) :
    Inv (step m input output).machine l :=
  execute_inv m _ input output l h0 hI

/-- Any number of steps preserves the machine invariant. -/
theorem stepN_inv (n : Nat) : ∀ (m : Interpreter) (input output : List Nat) (l : Nat),
    0 < l → Inv m l → Inv (stepN m input output n).1 l := by
  induction n with
  | zero => intro m input output l _ hI; exact hI
  | succ k ih =>
    intro m input output l h0 hI
    exact ih _ _ _ l h0 (step_inv m input output l h0 hI)

/-- A freshly constructed interpreter satisfies the invariant, and its
length is positive. -/
theorem new_inv (L W : Nat) (m0 : Interpreter) (h : Interpreter.new L W = some m0) :
    0 < L ∧ Inv m0 L := by
  unfold Interpreter.new at h
  split at h
  · cases h
  · split at h
    · cases h
    · rename_i h1 h2
      cases h
      refine ⟨by omega, by simp, by simpa using by omega, by simpa using by omega⟩

/-- Loading a program preserves the machine invariant. -/
theorem copy_program_inv (m m2 : Interpreter) (p : List Nat) (l : Nat)
    (h0 : 0 < l) (hm : m.memory.length = l)
    (h : copy_program m p = some m2) : Inv m2 l := by
  unfold copy_program at h
  split at h
  · cases h
    refine ⟨?_, h0, h0⟩
    simp [reset, length_store_program, hm]
  · cases h

/-- Reading a cell the set did not touch is unchanged. -/
theorem getD_set_ne (v : Nat) : ∀ (l : List Nat) (i j : Nat), i ≠ j →
    (l.set i v).getD j 0 = l.getD j 0 := by
  intro l
  induction l with
  | nil => intro i j _; simp [List.set]
  | cons a t ih =>
    intro i j hne
    cases i with
    | zero =>
      cases j with
      | zero => exact absurd rfl hne
      | succ j2 => simp
    | succ i2 =>
      cases j with
      | zero => simp
      | succ j2 => simpa using ih i2 j2 (by omega)

/-- Reading an in-range cell just set gives the value written. -/
theorem getD_set_self (v : Nat) : ∀ (l : List Nat) (i : Nat), i < l.length →
    (l.set i v).getD i 0 = v := by
  intro l
  induction l with
  | nil => intro i h; simp at h
  | cons a t ih =>
    intro i h
    cases i with
    | zero => rfl
    | succ j => simpa using ih j (by simpa using h)

/-- The loading loop leaves every cell outside the written window
unchanged. -/
theorem store_program_getD_out : ∀ (p mem : List Nat) (s j : Nat),
    j < s ∨ s + p.length ≤ j →
    (store_program mem p s).getD j 0 = mem.getD j 0 := by
  intro p
  induction p with
  | nil => intro mem s j _; rfl
  | cons b rest ih =>
    intro mem s j hj
    simp only [store_program]
    rw [ih (mem.set s (translate_byte b)) (s + 1) j (by simp at hj; omega)]
    exact getD_set_ne _ _ _ _ (by simp at hj; omega)

/-- The loading loop writes the translation of program byte j - s at
cell j of the written window. -/
theorem store_program_getD_mid : ∀ (p mem : List Nat) (s j : Nat),
    s ≤ j → j < s + p.length → j < mem.length →
    (store_program mem p s).getD j 0 = translate_byte (p.getD (j - s) 0) := by
  intro p
  induction p with
  | nil => intro mem s j h1 h2 _; simp at h2; omega
  | cons b rest ih =>
    intro mem s j h1 h2 hm
    simp only [store_program]
    rcases Nat.eq_or_lt_of_le h1 with he | hlt
    · subst he
      rw [store_program_getD_out rest _ (s + 1) s (by omega)]
      rw [getD_set_self _ _ _ hm]
      simp
    · rw [ih (mem.set s (translate_byte b)) (s + 1) j (by omega) (by simp at h2 ⊢; omega) (by simpa using hm)]
      congr 1
      have : j - s = (j - (s + 1)) + 1 := by omega
      rw [this]
      simp

/-- Claim C4: for every valid interpreter (a successful construction with
any arch length and width), optionally loaded with any program, and any
number of steps over any input, both index registers satisfy 0 ≤ PC < L
and 0 ≤ SP < L after construction, after reset, and after every step:
every opcode, the POPPC, POPSP, SPTGT, ENDL, BRAN, BRAP and SKIP family
included, leaves both indices in range. -/
theorem registers_always_in_range (L W n : Nat) (m0 mload : Interpreter)
    (p inp out : List Nat)
    (hnew : Interpreter.new L W = some m0)
    (hload : copy_program m0 p = some mload ∨ mload = m0) :
    RegsOk m0 ∧ RegsOk (reset mload) ∧ RegsOk (stepN mload inp out n).1 := by
  obtain ⟨h0, hInv0⟩ := new_inv L W m0 hnew
  have hInvL : Inv mload L := by
    rcases hload with h | h
    · exact copy_program_inv m0 mload p L h0 hInv0.1 h
    · rw [h]; exact hInv0
  have hreset : Inv (reset mload) L := ⟨by simp [reset, hInvL.1], h0, h0⟩
  have hrun := stepN_inv n mload inp out L h0 hInvL
  have toRegs : ∀ m2 : Interpreter, Inv m2 L → RegsOk m2 := by
    rintro m2 ⟨h1, h2, h3⟩
    exact ⟨by omega, by omega⟩
  exact ⟨toRegs _ hInv0, toRegs _ hreset, toRegs _ hrun⟩

/-- Witness for C4: an interpreter of length 3 loaded with a one byte
BRAN program keeps its registers in range for five steps. -/
theorem registers_always_in_range_witness :
    Interpreter.new 3 8 = some ⟨8, [0, 0, 0], 0, 0, false⟩ ∧
    (RegsOk (⟨8, [0, 0, 0], 0, 0, false⟩ : Interpreter) ∧
     RegsOk (reset ⟨8, [34, 0, 0], 0, 0, false⟩) ∧
     RegsOk (stepN ⟨8, [34, 0, 0], 0, 0, false⟩ [] [] 5).1) :=
  ⟨by decide, registers_always_in_range 3 8 5 ⟨8, [0, 0, 0], 0, 0, false⟩
      ⟨8, [34, 0, 0], 0, 0, false⟩ [66] [] [] (by decide) (Or.inl (by decide))⟩

/-- Claim C7: for every program that fits in memory, copy_program stores
at every index i below the program length the opcode number of the byte
when it is a recognized mnemonic character and the raw byte otherwise,
leaves every cell at or beyond the program length unchanged, and performs
an implicit reset of the registers. -/
theorem copy_program_loads (m m2 : Interpreter) (p : List Nat)
    (hlen : p.length ≤ m.memory.length)
    (h : copy_program m p = some m2) :
    (∀ i, i < p.length →
       (is_valid_mnemonic (Char.ofNat (p.getD i 0)) = true →
          m2.memory.getD i 0 = (Instruction.from_mnemonic (Char.ofNat (p.getD i 0))).opcode) ∧
       (is_valid_mnemonic (Char.ofNat (p.getD i 0)) = false →
          m2.memory.getD i 0 = p.getD i 0)) ∧
    (∀ i, p.length ≤ i → m2.memory.getD i 0 = m.memory.getD i 0) ∧
    m2.pc = 0 ∧ m2.sp = 0 ∧ m2.nz = false := by
  unfold copy_program at h
  rw [if_pos hlen] at h
  cases h
  refine ⟨?_, ?_, rfl, rfl, rfl⟩
  · intro i hi
    have hmem : (reset { m with memory := store_program m.memory p 0 }).memory.getD i 0
        = translate_byte (p.getD i 0) := by
      show (store_program m.memory p 0).getD i 0 = _
      rw [store_program_getD_mid p m.memory 0 i (by omega) (by omega) (by omega)]
      simp
    constructor
    · intro hv
      rw [hmem]
      unfold translate_byte
      rw [if_pos hv]
    · intro hv
      rw [hmem]
      unfold translate_byte
      rw [if_neg (by simp only [hv]; exact fun hc => Bool.noConfusion hc)]
  · intro i hi
    show (store_program m.memory p 0).getD i 0 = m.memory.getD i 0
    exact store_program_getD_out p m.memory 0 i (by omega)

/-- Witness for C7: loading the two byte program B followed by byte 200
into a length 3 machine stores opcode 34, the raw byte 200, keeps the
third cell, and resets the registers. -/
theorem copy_program_loads_witness :
    ([66, 200] : List Nat).length ≤ ([9, 9, 9] : List Nat).length ∧
    copy_program ⟨8, [9, 9, 9], 2, 1, true⟩ [66, 200] = some ⟨8, [34, 200, 9], 0, 0, false⟩ ∧
    ((∀ i, i < ([66, 200] : List Nat).length →
       (is_valid_mnemonic (Char.ofNat (([66, 200] : List Nat).getD i 0)) = true →
          (⟨8, [34, 200, 9], 0, 0, false⟩ : Interpreter).memory.getD i 0 =
            (Instruction.from_mnemonic (Char.ofNat (([66, 200] : List Nat).getD i 0))).opcode) ∧
       (is_valid_mnemonic (Char.ofNat (([66, 200] : List Nat).getD i 0)) = false →
          (⟨8, [34, 200, 9], 0, 0, false⟩ : Interpreter).memory.getD i 0 =
            ([66, 200] : List Nat).getD i 0)) ∧
     (∀ i, ([66, 200] : List Nat).length ≤ i →
        (⟨8, [34, 200, 9], 0, 0, false⟩ : Interpreter).memory.getD i 0 =
          (⟨8, [9, 9, 9], 2, 1, true⟩ : Interpreter).memory.getD i 0) ∧
     (⟨8, [34, 200, 9], 0, 0, false⟩ : Interpreter).pc = 0 ∧
     (⟨8, [34, 200, 9], 0, 0, false⟩ : Interpreter).sp = 0 ∧
     (⟨8, [34, 200, 9], 0, 0, false⟩ : Interpreter).nz = false) :=
  ⟨by decide, by decide,
   copy_program_loads ⟨8, [9, 9, 9], 2, 1, true⟩ ⟨8, [34, 200, 9], 0, 0, false⟩ [66, 200]
     (by decide) (by decide)⟩

/-- Claim C5, amended: executing IN at end of input pushes the byte 0,
sets NZ to false, advances PC by one modulo L, and returns a Statement
whose success flag is TRUE, because a reader at end of input reports Ok
with zero bytes read rather than an error; the flag is false only on a
read error. -/
theorem in_on_eof (m : Interpreter) (out : List Nat)
    (h0 : 0 < m.memory.length) (hsp : m.sp < m.memory.length)
    (hop : m.memory.getD m.pc 0 = 3) :
    (step m [] out).machine.pc = (m.pc + 1) % m.memory.length ∧
    (step m [] out).machine.sp = (if m.sp = 0 then m.memory.length - 1 else m.sp - 1) ∧
    (step m [] out).machine.memory =
      m.memory.set (if m.sp = 0 then m.memory.length - 1 else m.sp - 1) 0 ∧
    (step m [] out).machine.memory.getD (step m [] out).machine.sp 0 = 0 ∧
    (step m [] out).machine.nz = false ∧
    (step m [] out).stmt = ⟨3, true⟩ := by
  have hdec : (if m.sp = 0 then m.memory.length - 1 else m.sp - 1) < m.memory.length := by
    split <;> omega
  unfold step
  rw [hop]
  unfold execute
  simp only [decrement_sp, set_nz, increment_pc, increment_pc_n, List.headD_nil, List.tail_nil,
    Nat.zero_mod, List.length_set]
  refine ⟨?_, ?_, ?_, ?_, ?_, ?_⟩ <;>
    first
      | trivial
      | exact getD_set_self 0 m.memory _ hdec

/-- Counterexample to C5 as stated: with the IN opcode under PC and an
empty input stream the success flag of the returned Statement is not
false. -/
theorem in_on_eof_claim_false :
    ¬ ((step ⟨8, [3, 0], 0, 0, false⟩ [] []).stmt.success = false) := by decide

/-- Witness for the amended C5 at a concrete machine of length 2. -/
theorem in_on_eof_witness :
    0 < ([3, 0] : List Nat).length ∧ 0 < 2 ∧
    ((step ⟨8, [3, 0], 0, 0, false⟩ [] []).machine.pc = (0 + 1) % ([3, 0] : List Nat).length ∧
     (step ⟨8, [3, 0], 0, 0, false⟩ [] []).machine.sp =
       (if 0 = 0 then ([3, 0] : List Nat).length - 1 else 0 - 1) ∧
     (step ⟨8, [3, 0], 0, 0, false⟩ [] []).machine.memory =
       ([3, 0] : List Nat).set (if 0 = 0 then ([3, 0] : List Nat).length - 1 else 0 - 1) 0 ∧
     (step ⟨8, [3, 0], 0, 0, false⟩ [] []).machine.memory.getD
       (step ⟨8, [3, 0], 0, 0, false⟩ [] []).machine.sp 0 = 0 ∧
     (step ⟨8, [3, 0], 0, 0, false⟩ [] []).machine.nz = false ∧
     (step ⟨8, [3, 0], 0, 0, false⟩ [] []).stmt = ⟨3, true⟩) :=
  ⟨by decide, by decide, in_on_eof ⟨8, [3, 0], 0, 0, false⟩ [] (by decide) (by decide) (by decide)⟩

/-- Claim C9: converting any of the 46 opcodes to its single character
mnemonic and back yields the same opcode. -/
theorem from_mnemonic_to_mnemonic (op : Instruction) :
    Instruction.from_mnemonic (Instruction.to_mnemonic op) = op := by
  cases op <;> rfl

/-- Claim C10: reset touches only the registers, setting PC and SP to 0
and NZ to false; every memory cell and the arch width are unchanged, so
a loaded program survives a reset. -/
theorem reset_only_registers (m : Interpreter) :
    (reset m).memory = m.memory ∧ (reset m).arch_width = m.arch_width ∧
    (reset m).pc = 0 ∧ (reset m).sp = 0 ∧ (reset m).nz = false :=
  ⟨rfl, rfl, rfl, rfl, rfl⟩

/-- Claim C1 (code bug): on the machine 34, 36, 0 with PC 0, the BRAN
arm of execute finds the TARGET at index 1 but then assigns SP, not PC:
the result has PC still 0 and SP 1, while the claim and the doc comment
of the BraN opcode require PC 2 with SP unchanged at 0. -/
theorem bran_sets_sp_not_pc :
    (step ⟨8, [34, 36, 0], 0, 0, false⟩ [] []).machine.pc = 0 ∧
    (step ⟨8, [34, 36, 0], 0, 0, false⟩ [] []).machine.sp = 1 ∧
    (step ⟨8, [34, 36, 0], 0, 0, false⟩ [] []).machine.memory = [34, 36, 0] ∧
    ¬ ((step ⟨8, [34, 36, 0], 0, 0, false⟩ [] []).machine.pc = 2 ∧
       (step ⟨8, [34, 36, 0], 0, 0, false⟩ [] []).machine.sp = 0) := by decide

/-- Claim C2 (code bug): on a width 6 machine with DIV under PC and a
zero divisor, the DIV arm stores the single value 255 (the u8 maximum,
not the word maximum 63) at the decremented SP and stores no remainder
anywhere, while the claim requires the quotient 2 ^ W - 1 at one cell
and the remainder 0 at another. -/
theorem div_stores_only_quotient :
    (step ⟨6, [19, 0, 5], 0, 1, false⟩ [] []).machine.memory = [255, 0, 5] ∧
    (step ⟨6, [19, 0, 5], 0, 1, false⟩ [] []).machine.sp = 0 ∧
    (step ⟨6, [19, 0, 5], 0, 1, false⟩ [] []).machine.nz = true ∧
    (step ⟨6, [19, 0, 5], 0, 1, false⟩ [] []).machine.pc = 1 ∧
    ¬ (255 = 2 ^ 6 - 1) := by decide

/-- Claim C3 (code bug): a width 6 machine loaded with the one byte IN
program reads the input byte 255 and stores it raw: the cell then holds
255, which is not below 2 ^ 6, because no opcode ever calls the trunc
helper. -/
theorem in_stores_untruncated_byte :
    (Interpreter.new 2 6).bind (fun m0 => copy_program m0 [73]) =
      some ⟨6, [3, 0], 0, 0, false⟩ ∧
    (step ⟨6, [3, 0], 0, 0, false⟩ [255] []).machine.memory.getD 1 0 = 255 ∧
    ¬ (255 < 2 ^ 6) := by decide

/-- Claim C6 (code bug): copying a two byte program into a length 1
machine does not return a ProgramTooLarge error; the source has no
length check and its write at index 1 is out of bounds, a panic,
modelled as none. -/
theorem copy_program_oversized_panics :
    (Interpreter.new 1 8).bind (fun m0 => copy_program m0 [59, 59]) = none := by decide

/-- Claim C8 (code bug): with the ignore flag set, Program construction
pops the last byte even when it is not a newline: the two bytes 97, 98
become the single byte 97. The empty stream is rejected and the unset
flag keeps every byte. -/
theorem program_new_pops_any_last_byte :
    Program.new [97, 98] true = some [97] ∧
    Program.new ([] : List Nat) true = none ∧
    Program.new [97, 98] false = some [97, 98] := by decide

end Reustmann
